import Mathlib

/-!
Verification development for the fraud-detection retraining job
(`demos/demo_job_retreinamento.py`).

The Python core is embedded shallowly: each function of the job file is
translated into an executable Lean definition over explicit data.  Missing
values (pandas `NaN`) are `Option.none`; a `DataFrame` of transactions is a
`List Registro`; money amounts are rationals; the serialized model artifact is
an opaque byte list.
-/

namespace RetreinamentoFraude

/-- One transaction row of the training `DataFrame`
(`valor, hora, dia_semana, categoria, is_fraude`).  A `none` field is a
pandas `NaN` / missing value. -/
structure Registro where
  valor : Option ℚ
  hora : Option ℤ
  diaSemana : Option ℤ
  categoria : Option String
  isFraude : Option ℤ
deriving DecidableEq, Repr

/-- `dados['valor'] > 0` on one row: a missing amount compares `False`,
exactly as `NaN > 0` does in pandas. -/
def okValor (r : Registro) : Bool :=
  match r.valor with
  | some v => decide (0 < v)
  | none => false

/-- `dados['hora'].between(0, 23)` on one row (inclusive bounds); a missing
hour compares `False`. -/
def okHora (r : Registro) : Bool :=
  match r.hora with
  | some h => decide (0 ≤ h ∧ h ≤ 23)
  | none => false

/-- Row has no missing field: the row-wise predicate of `dropna()`. -/
def completo (r : Registro) : Bool :=
  r.valor.isSome && r.hora.isSome && r.diaSemana.isSome &&
    r.categoria.isSome && r.isFraude.isSome

/-- `dados = dados[dados['valor'] > 0]`. -/
def filtroValor (l : List Registro) : List Registro :=
  l.filter okValor

/-- `dados = dados[dados['hora'].between(0, 23)]`. -/
def filtroHora (l : List Registro) : List Registro :=
  l.filter okHora

/-- `dados = dados.dropna()` (also reused, per the spec's wording, as the
"drop rows with any missing field" step). -/
def filtroCompleto (l : List Registro) : List Registro :=
  l.filter completo

/-- `drop_duplicates()`: keep the first occurrence of each distinct row
(pandas `keep='first'`; `NaN` cells compare equal for deduplication, as
`Option.none = Option.none` does here).  Each element is kept and every
later copy of it is filtered out of the deduplicated tail. -/
def dropDup {α : Type} [DecidableEq α] : List α → List α
  | [] => []
  | x :: xs => x :: (dropDup xs).filter (fun y => decide (y ≠ x))

/-- The cleaning part of `validar_dados`, in the source order:
amount filter, hour filter, `drop_duplicates`, `dropna`. -/
def limparDados (l : List Registro) : List Registro :=
  filtroCompleto (dropDup (filtroHora (filtroValor l)))

/-- The successive intermediate batches of the cleaning pipeline, in the
source order: input, after the amount filter, after the hour filter, after
`drop_duplicates`, after `dropna`. -/
def limparTrace (l : List Registro) : List (List Registro) :=
  [l, filtroValor l, filtroHora (filtroValor l),
    dropDup (filtroHora (filtroValor l)),
    filtroCompleto (dropDup (filtroHora (filtroValor l)))]

/-- The message of the `ValueError` raised on insufficient data:
`f"Dados insuficientes: {len(dados)} < {minimo}"`. -/
def mensagemInsuficiente (restantes minimo : ℕ) : String :=
  "Dados insuficientes: " ++ toString restantes ++ " < " ++ toString minimo

/-- `validar_dados(dados, minimo)`: clean, then fail iff fewer than `minimo`
rows remain. -/
def validarDados (l : List Registro) (minimo : ℕ) : Except String (List Registro) :=
  let dados := limparDados l
  if dados.length < minimo then
    Except.error (mensagemInsuficiente dados.length minimo)
  else
    Except.ok dados

/-- Modelled from the spec (§4.1), for comparison with `limparDados`: the
cleaning steps in the order the spec states them — missing fields first,
then amount, then hour, duplicates last. -/
def limparSpecOrdem (l : List Registro) : List Registro :=
  dropDup (filtroHora (filtroValor (filtroCompleto l)))

/-! ### Supporting lemmas about `dropDup` and filters -/

theorem mem_dropDup {α : Type} [DecidableEq α] (a : α) (l : List α) :
    a ∈ dropDup l ↔ a ∈ l := by
  induction l with
  | nil => rfl
  | cons x xs ih =>
    by_cases hax : a = x
    · subst hax
      simp [dropDup]
    · simp only [dropDup, List.mem_cons, hax, false_or, List.mem_filter,
        decide_eq_true_eq, ih]
      tauto

theorem dropDup_nodup {α : Type} [DecidableEq α] (l : List α) :
    (dropDup l).Nodup := by
  induction l with
  | nil => exact List.nodup_nil
  | cons x xs ih =>
    refine List.nodup_cons.mpr ⟨?_, ih.filter _⟩
    intro hx
    have := List.of_mem_filter hx
    simp at this

theorem dropDup_eq_self {α : Type} [DecidableEq α] (l : List α) (hl : l.Nodup) :
    dropDup l = l := by
  induction l with
  | nil => rfl
  | cons x xs ih =>
    have hx : x ∉ xs := (List.nodup_cons.mp hl).1
    have hxs : xs.Nodup := (List.nodup_cons.mp hl).2
    have hfil : xs.filter (fun y => decide (y ≠ x)) = xs := by
      apply List.filter_eq_self.mpr
      intro y hy
      simp only [decide_eq_true_eq]
      intro hyx
      exact hx (hyx ▸ hy)
    simp only [dropDup, ih hxs, hfil]

theorem dropDup_length_le {α : Type} [DecidableEq α] (l : List α) :
    (dropDup l).length ≤ l.length := by
  induction l with
  | nil => exact Nat.le_refl 0
  | cons x xs ih =>
    simp only [dropDup, List.length_cons, Nat.succ_le_succ_iff]
    exact Nat.le_trans (List.length_filter_le _ _) ih

theorem filter_comm {α : Type} (p q : α → Bool) (l : List α) :
    (l.filter p).filter q = (l.filter q).filter p := by
  induction l with
  | nil => rfl
  | cons x xs ih =>
    by_cases hp : p x = true <;> by_cases hq : q x = true <;>
      simp [List.filter_cons, hp, hq, ih]

theorem dropDup_filter {α : Type} [DecidableEq α] (p : α → Bool) (l : List α) :
    dropDup (l.filter p) = (dropDup l).filter p := by
  induction l with
  | nil => rfl
  | cons x xs ih =>
    by_cases hp : p x = true
    · rw [List.filter_cons_of_pos hp]
      simp only [dropDup, List.filter_cons_of_pos hp]
      rw [ih, filter_comm]
    · have hfil : ((dropDup xs).filter p).filter (fun y => decide (y ≠ x))
          = (dropDup xs).filter p := by
        apply List.filter_eq_self.mpr
        intro y hy
        have hpy := List.of_mem_filter hy
        simp only [decide_eq_true_eq]
        intro hyx
        subst hyx
        exact hp hpy
      rw [List.filter_cons_of_neg (by simpa using hp)]
      simp only [dropDup, List.filter_cons_of_neg (by simpa using hp)]
      rw [ih, ← filter_comm, hfil]

/-! ### Feature preparation (`preparar_features`) -/

/-- Strict lexicographic comparison of character-code lists. -/
def menorLista : List ℕ → List ℕ → Bool
  | [], [] => false
  | [], _ :: _ => true
  | _ :: _, [] => false
  | x :: xs, y :: ys => if x < y then true else if y < x then false else menorLista xs ys

/-- Strict lexicographic comparison of strings by character codes, the
order in which `pd.get_dummies` sorts category values. -/
def menorStr (a b : String) : Bool :=
  menorLista (a.data.map Char.toNat) (b.data.map Char.toNat)

/-- Insert a string into a sorted list (ascending order), used to model the
sorted order in which `pd.get_dummies` lays out the dummy columns. -/
def insere (s : String) : List String → List String
  | [] => [s]
  | x :: xs => if menorStr s x then s :: x :: xs else x :: insere s xs

/-- Sort a list of strings ascending by insertion. -/
def ordenar (l : List String) : List String :=
  l.foldr insere []

/-- The distinct category codes appearing in the batch, in the sorted order
`pd.get_dummies` uses for the generated columns.  The vocabulary is inferred
from the batch itself, exactly as `get_dummies` does; a missing (`NaN`)
category contributes no value (`dummy_na=False`). -/
def categoriasPresentes (l : List Registro) : List String :=
  ordenar (dropDup (l.filterMap (fun r => r.categoria)))

/-- The feature columns of `preparar_features`: the encoded frame keeps the
non-dummied columns in their original order with the dummy columns appended,
and `is_fraude` is excluded from the feature list. -/
def colunasFeatures (l : List Registro) : List String :=
  ["valor", "hora", "dia_semana"] ++
    (categoriasPresentes l).map (fun c => "categoria_" ++ c)

/-- One encoded feature row: the numeric columns pass through unchanged
(missing stays missing), and each dummy column is 1 when the row's category
equals that column's code, else 0. -/
def linhaCodificada (cats : List String) (r : Registro) : List (Option ℚ) :=
  [r.valor, r.hora.map (fun h => (h : ℚ)), r.diaSemana.map (fun d => (d : ℚ))] ++
    cats.map (fun c => some (if r.categoria = some c then (1 : ℚ) else 0))

/-- `preparar_features(dados)`: one-hot encodes `categoria` with
`pd.get_dummies` and splits features `X` (with its column schema) from the
target `y = is_fraude`. -/
def prepararFeatures (l : List Registro) :
    (List String × List (List (Option ℚ))) × List (Option ℤ) :=
  ((colunasFeatures l, l.map (linhaCodificada (categoriasPresentes l))),
    l.map (fun r => r.isFraude))

/-! ### Model training (`treinar_modelo`) -/

/-- The constructor arguments of `RandomForestClassifier` used by the job. -/
structure ConfigTreino where
  nEstimators : ℕ
  maxDepth : Option ℕ
  randomState : Option ℕ
  nJobs : ℤ
deriving DecidableEq, Repr

/-- The hard-coded configuration inside `treinar_modelo`:
`n_estimators=100, max_depth=10, random_state=42, n_jobs=-1`. -/
def configPadraoFraude : ConfigTreino :=
  ⟨100, some 10, some 42, -1⟩

/-- The seed scikit-learn effectively fits with: `random_state` when given,
otherwise fresh ambient entropy drawn from the global generator. -/
def seedEfetiva (cfg : ConfigTreino) (entropia : ℕ) : ℕ :=
  cfg.randomState.getD entropia

/-- `treinar_modelo(dados)`: prepares features and invokes the external
learning capability `fit` with the hard-coded configuration.  `fit` is the
opaque training algorithm (deterministic given its seed); `entropia` is the
ambient randomness the call would consume if no seed were pinned. -/
def treinarModelo {M : Type} (fit : ConfigTreino → ℕ →
      (List String × List (List (Option ℚ))) → List (Option ℤ) → M)
    (entropia : ℕ) (dados : List Registro) : M :=
  let Xy := prepararFeatures dados
  fit configPadraoFraude (seedEfetiva configPadraoFraude entropia) Xy.1 Xy.2

/-! ### Fixed holdout set (`obter_dados_teste`) -/

/-- `obter_dados_teste()`: the persisted state is the contents of
`data/teste_fixo.csv` (`none` means the file does not exist).  When present
it is read back; otherwise the synthesized batch `gerado` (the seeded
generation block) is persisted and used.  Returns `preparar_features`
of the chosen batch together with the new persisted state. -/
def obterDadosTeste (gerado : List Registro) (persistido : Option (List Registro)) :
    ((List String × List (List (Option ℚ))) × List (Option ℤ)) × Option (List Registro) :=
  match persistido with
  | some dados => (prepararFeatures dados, some dados)
  | none => (prepararFeatures gerado, some gerado)

/-! ### Scoring and the promotion gate (`avaliar_modelo`, `comparar_modelos`) -/

/-- `sklearn.metrics.f1_score(y_teste, y_pred)` for binary labels:
`2*TP / (2*TP + FP + FN)`, and 0 when that denominator is 0. -/
def f1Score (yTeste yPred : List Bool) : ℚ :=
  let pares := yTeste.zip yPred
  let tp := (pares.filter (fun p => p.1 && p.2)).length
  let fp := (pares.filter (fun p => !p.1 && p.2)).length
  let fn := (pares.filter (fun p => p.1 && !p.2)).length
  if 2 * tp + fp + fn = 0 then 0
  else (2 * tp : ℚ) / ((2 * tp + fp + fn : ℕ) : ℚ)

/-- The gate's comparison `f1_novo >= f1_atual` (line 231 of the job). -/
def decidirPromocao (f1Atual f1Novo : ℚ) : Bool :=
  decide (f1Atual ≤ f1Novo)

/-- `comparar_modelos`: models are represented by the predictions they make
on the fixed holdout set `yTeste`.  The incumbent is `none` when
`MODELO_PRODUCAO` does not exist, in which case its score is taken as 0.0.
Returns `(modelo_novo_eh_melhor, f1_atual, f1_novo)`. -/
def compararModelos (predNovo : List Bool) (predAtual : Option (List Bool))
    (yTeste : List Bool) : Bool × ℚ × ℚ :=
  let f1Novo := f1Score yTeste predNovo
  let f1Atual := match predAtual with
    | some p => f1Score yTeste p
    | none => 0
  (decidirPromocao f1Atual f1Novo, f1Atual, f1Novo)

/-! ### Registry state and promotion (`promover_modelo`) -/

/-- A serialized model artifact (opaque pickle bytes). -/
abbrev Modelo := List ℕ

/-- The on-disk registry: the single current-production slot
(`models/modelo_em_producao.pkl`, `none` when absent) and the archive
directory (`models/arquivo/`), an association of timestamp keys to
artifacts. -/
structure EstadoModelos where
  producao : Option Modelo
  arquivo : List (String × Modelo)
deriving DecidableEq, Repr

/-- Write a file into the archive directory: a fresh name appends, an
existing name is overwritten (`shutil.copy` onto the same path). -/
def gravarArquivo (chave : String) (m : Modelo) :
    List (String × Modelo) → List (String × Modelo)
  | [] => [(chave, m)]
  | (k, v) :: resto =>
      if chave = k then (chave, m) :: resto else (k, v) :: gravarArquivo chave m resto

/-- `promover_modelo(modelo)`, final state: if a current artifact exists it
is written into the archive under the timestamp key, then the candidate is
written into the current slot. -/
def promoverModelo (ts : String) (novo : Modelo) (e : EstadoModelos) : EstadoModelos :=
  match e.producao with
  | some atual => ⟨some novo, gravarArquivo ts atual e.arquivo⟩
  | none => ⟨some novo, e.arquivo⟩

/-- The observable file-system states during `promover_modelo`, in order:
the initial state; after `shutil.copy` into the archive (the prior file is
still the current one — copy, not move); after `open(..., 'wb')` truncates
the current file (current contents now the empty byte string); after
`pickle.dump` completes (current is the candidate). -/
def promoverTrace (ts : String) (novo : Modelo) (e : EstadoModelos) :
    List EstadoModelos :=
  match e.producao with
  | some atual =>
      [e,
       ⟨some atual, gravarArquivo ts atual e.arquivo⟩,
       ⟨some [], gravarArquivo ts atual e.arquivo⟩,
       ⟨some novo, gravarArquivo ts atual e.arquivo⟩]
  | none =>
      [e, ⟨some [], e.arquivo⟩, ⟨some novo, e.arquivo⟩]

/-! ### The orchestrator (`executar_job`) -/

/-- Terminal status of one job run: the spec's tri-state `JobOutcome`.
`abortado` carries the propagated error message. -/
inductive StatusJob where
  | promovido
  | rejeitado
  | abortado (mensagem : String)
deriving DecidableEq, Repr

/-- One `alertar(mensagem, f1_atual, f1_novo)` call. -/
structure Alerta where
  mensagem : String
  f1Atual : Option ℚ
  f1Novo : Option ℚ
deriving DecidableEq, Repr

/-- Everything observable about one job run: the terminal status, the
registry state afterwards, the notifications sent, and whether the
`finally` block (the end-of-job log) ran. -/
structure ResultadoJob where
  status : StatusJob
  estado : EstadoModelos
  alertas : List Alerta
  finalizado : Bool
deriving DecidableEq, Repr

/-- The outcomes of the four Collect→Decide phases of one run, as the
orchestrator consumes them: each phase either yields its value or raises
(`Except.error`).  `ts` is the wall-clock timestamp a promotion in this run
would archive under. -/
structure FasesJob where
  coletar : Except String (List Registro)
  validar : List Registro → Except String (List Registro)
  treinar : List Registro → Except String Modelo
  comparar : Modelo → Except String (Bool × ℚ × ℚ)
  ts : String

/-- The body of the `try` block through the Decide step: the first phase to
raise aborts the whole chain with its error. -/
def nucleoJob (f : FasesJob) : Except String (Modelo × Bool × ℚ × ℚ) := do
  let dados ← f.coletar
  let dadosValidos ← f.validar dados
  let modelo ← f.treinar dadosValidos
  let r ← f.comparar modelo
  pure (modelo, r.1, r.2.1, r.2.2)

/-- `executar_job`: on a Promote decision the registry is updated via
`promover_modelo` and no alert is sent; on Reject the registry is untouched
and one alert with both scores is sent; on any raised error the registry is
untouched, one alert carrying the error message is sent, and the error is
re-raised as the aborted status.  The `finally` block runs on every path. -/
def executarJob (f : FasesJob) (e : EstadoModelos) : ResultadoJob :=
  match nucleoJob f with
  | Except.ok (modelo, true, _, _) =>
      ⟨StatusJob.promovido, promoverModelo f.ts modelo e, [], true⟩
  | Except.ok (_, false, f1Atual, f1Novo) =>
      ⟨StatusJob.rejeitado, e,
        [⟨"Modelo novo pior que atual", some f1Atual, some f1Novo⟩], true⟩
  | Except.error msg =>
      ⟨StatusJob.abortado msg, e, [⟨msg, none, none⟩], true⟩

/-- Thread the registry state through a sequence of job runs. -/
def executarSequencia : List FasesJob → EstadoModelos → EstadoModelos
  | [], e => e
  | f :: fs, e => executarSequencia fs (executarJob f e).estado

/-- Whether a run reaches a Promote decision. -/
def ehPromocao (f : FasesJob) : Bool :=
  match nucleoJob f with
  | Except.ok (_, true, _, _) => true
  | _ => false

/-- The number of Promote decisions in a sequence of runs. -/
def contarPromocoes (fs : List FasesJob) : ℕ :=
  fs.countP ehPromocao

/-- The registry before the first-ever run: no current artifact, empty
archive. -/
def estadoVazio : EstadoModelos :=
  ⟨none, []⟩

/-! ### Lemmas about the cleaning pipeline -/

theorem mem_limparDados (r : Registro) (l : List Registro) (h : r ∈ limparDados l) :
    okValor r = true ∧ okHora r = true ∧ completo r = true := by
  have h4 : completo r = true := List.of_mem_filter h
  have h3 : r ∈ dropDup (filtroHora (filtroValor l)) := List.mem_of_mem_filter h
  have h2 : r ∈ filtroHora (filtroValor l) := (mem_dropDup r _).mp h3
  have hHora : okHora r = true := List.of_mem_filter h2
  have h1 : r ∈ filtroValor l := List.mem_of_mem_filter h2
  exact ⟨List.of_mem_filter h1, hHora, h4⟩

theorem limparDados_nodup (l : List Registro) : (limparDados l).Nodup :=
  (dropDup_nodup (filtroHora (filtroValor l))).filter _

theorem limparDados_idem (l : List Registro) :
    limparDados (limparDados l) = limparDados l := by
  set c := limparDados l with hc
  have hv : filtroValor c = c :=
    List.filter_eq_self.mpr (fun r hr => (mem_limparDados r l hr).1)
  have hh : filtroHora (filtroValor c) = c := by
    rw [hv]
    exact List.filter_eq_self.mpr (fun r hr => (mem_limparDados r l hr).2.1)
  have hd : dropDup (filtroHora (filtroValor c)) = c := by
    rw [hh]
    exact dropDup_eq_self c (limparDados_nodup l)
  show filtroCompleto (dropDup (filtroHora (filtroValor c))) = c
  rw [hd]
  exact List.filter_eq_self.mpr (fun r hr => (mem_limparDados r l hr).2.2)

/-- A sample row with a missing `dia_semana` field but a valid amount and
hour: it survives the first three cleaning steps of the source and is only
removed by the final `dropna()`. -/
def linhaSemDia : Registro := ⟨some 10, some 2, none, some "A", some 1⟩

/-- A fully valid sample row. -/
def linhaValida : Registro := ⟨some 5, some 3, some 1, some "A", some 0⟩

/-- A batch exercising the cleaning order: one row with a missing field,
and one duplicated valid row. -/
def loteOrdem : List Registro := [linhaSemDia, linhaValida, linhaValida]

/-- A row with a non-positive amount (dropped by the first filter). -/
def linhaValorRuim : Registro := ⟨some (-1), some 3, some 1, some "A", some 0⟩

/-- A second distinct row with a non-positive amount. -/
def linhaValorRuim2 : Registro := ⟨some (-2), some 4, some 2, some "B", some 0⟩

/-- A one-row batch that cleans down to nothing. -/
def loteRuimA : List Registro := [linhaValorRuim]

/-- A two-row batch that also cleans down to nothing, with a different
original row count than `loteRuimA`. -/
def loteRuimB : List Registro := [linhaValorRuim, linhaValorRuim2]

/-! ### Claim C5 — order of the cleaning steps -/

/-- C5 counterexample.  The claim states the validator drops rows with any
missing field *first* and drops exact duplicates *last*.  On `loteOrdem`
the code's own intermediate states (`limparTrace`, mirroring lines 99–102
of the source) show otherwise: after the first cleaning step a row with a
missing field is still present, and after the deduplication step a later
step still removes a row — so missing-field removal is not first and
deduplication is not last. -/
theorem limpeza_ordem_contraexemplo :
    ((limparTrace loteOrdem).getD 1 []).any (fun r => !completo r) = true ∧
    ((limparTrace loteOrdem).getD 4 []).length <
      ((limparTrace loteOrdem).getD 3 []).length := by
  decide

/-- C5 amended: the validator applies its cleaning steps in the order
amount filter, hour filter, exact-duplicate removal, and missing-field
removal *last* (a row whose amount or hour is itself missing already falls
to the corresponding filter); each step only reduces the batch, and the
final cleaned batch coincides with the one produced by the order the spec
states (missing fields first, duplicates last). -/
theorem limpeza_ordem_real (l : List Registro) :
    limparDados l = limparSpecOrdem l ∧
    (filtroValor l).length ≤ l.length ∧
    (filtroHora (filtroValor l)).length ≤ (filtroValor l).length ∧
    (dropDup (filtroHora (filtroValor l))).length ≤ (filtroHora (filtroValor l)).length ∧
    (limparDados l).length ≤ (dropDup (filtroHora (filtroValor l))).length := by
  refine ⟨?_, List.length_filter_le _ _, List.length_filter_le _ _,
    dropDup_length_le _, List.length_filter_le _ _⟩
  show filtroCompleto (dropDup (filtroHora (filtroValor l))) = limparSpecOrdem l
  unfold limparSpecOrdem filtroCompleto filtroHora filtroValor
  rw [← dropDup_filter]
  congr 1
  rw [filter_comm okHora completo, filter_comm okValor completo]

/-! ### Claim C4 — the insufficient-data failure -/

/-- C4 counterexample.  The claim states the raised error carries the
original row count and the percentage of rows lost.  But `loteRuimA`
(1 original row) and `loteRuimB` (2 original rows, hence a different
percentage lost) produce the *identical* error, which therefore cannot
carry either datum: the message only contains the cleaned count and the
threshold. -/
theorem validar_erro_contraexemplo :
    validarDados loteRuimA 10 = validarDados loteRuimB 10 ∧
    loteRuimA.length ≠ loteRuimB.length ∧
    validarDados loteRuimA 10 = Except.error (mensagemInsuficiente 0 10) :=
  ⟨rfl, by decide, rfl⟩

/-- C4 amended: `validar_dados` raises if and only if the batch size after
all cleaning steps is strictly below the threshold; the raised error
carries the cleaned row count and the threshold (not the original count or
the percentage lost); and a run whose validation fails aborts with that
validation error before the trainer is ever consulted (the outcome is the
same for every trainer). -/
theorem validar_erro_sse (l : List Registro) (minimo : ℕ) :
    ((∃ e, validarDados l minimo = Except.error e) ↔ (limparDados l).length < minimo) ∧
    (∀ e, validarDados l minimo = Except.error e →
      e = mensagemInsuficiente (limparDados l).length minimo) ∧
    (∀ c, validarDados l minimo = Except.ok c → c = limparDados l ∧ minimo ≤ c.length) ∧
    (∀ (treinar : List Registro → Except String Modelo)
        (comparar : Modelo → Except String (Bool × ℚ × ℚ)) (ts : String),
      (limparDados l).length < minimo →
        nucleoJob ⟨Except.ok l, fun d => validarDados d minimo, treinar, comparar, ts⟩
          = Except.error (mensagemInsuficiente (limparDados l).length minimo)) := by
  refine ⟨⟨?_, ?_⟩, ?_, ?_, ?_⟩
  · rintro ⟨e, he⟩
    by_contra hlen
    simp only [validarDados, if_neg hlen] at he
    exact Except.noConfusion he
  · intro hlen
    exact ⟨mensagemInsuficiente (limparDados l).length minimo,
      by simp only [validarDados, if_pos hlen]⟩
  · intro e he
    rcases Nat.lt_or_ge (limparDados l).length minimo with hlen | hlen
    · simp only [validarDados, if_pos hlen] at he
      exact ((Except.error.injEq _ _).mp he.symm)
    · simp only [validarDados, if_neg (Nat.not_lt.mpr hlen)] at he
      exact Except.noConfusion he
  · intro c hc
    rcases Nat.lt_or_ge (limparDados l).length minimo with hlen | hlen
    · simp only [validarDados, if_pos hlen] at hc
      exact Except.noConfusion hc
    · simp only [validarDados, if_neg (Nat.not_lt.mpr hlen)] at hc
      obtain rfl : limparDados l = c := (Except.ok.injEq _ _).mp hc
      exact ⟨rfl, hlen⟩
  · intro treinar comparar ts hlen
    have hval : validarDados l minimo
        = Except.error (mensagemInsuficiente (limparDados l).length minimo) := by
      simp only [validarDados, if_pos hlen]
    show (validarDados l minimo >>= fun dadosValidos =>
        treinar dadosValidos >>= fun modelo =>
        comparar modelo >>= fun r =>
        pure (modelo, r.1, r.2.1, r.2.2)) = _
    rw [hval]
    rfl

/-- C4 amended, witness: the concrete batch `loteRuimA` cleans to 0 rows,
below the threshold 10, so the job aborts with the validation message. -/
theorem validar_erro_sse_witness :
    (limparDados loteRuimA).length < 10 ∧
    nucleoJob ⟨Except.ok loteRuimA, fun d => validarDados d 10,
        fun _ => Except.ok [7], fun _ => Except.ok (true, 0, 1), "t"⟩
      = Except.error (mensagemInsuficiente 0 10) :=
  ⟨by decide,
    (validar_erro_sse loteRuimA 10).2.2.2 (fun _ => Except.ok [7])
      (fun _ => Except.ok (true, 0, 1)) "t" (by decide)⟩

/-! ### Claim C9 — idempotence of validation -/

/-- C9: validation is idempotent — when `validar_dados` accepts a batch and
returns the cleaned batch `c`, re-validating `c` with the same threshold
removes no row and returns `c` unchanged. -/
theorem validar_idempotente (l : List Registro) (minimo : ℕ) (c : List Registro)
    (h : validarDados l minimo = Except.ok c) : validarDados c minimo = Except.ok c := by
  rcases Nat.lt_or_ge (limparDados l).length minimo with hlen | hlen
  · simp only [validarDados, if_pos hlen] at h
    exact Except.noConfusion h
  · simp only [validarDados, if_neg (Nat.not_lt.mpr hlen)] at h
    obtain rfl : limparDados l = c := (Except.ok.injEq _ _).mp h
    have hidem := limparDados_idem l
    simp only [validarDados, hidem, if_neg (Nat.not_lt.mpr hlen)]

/-- C9 witness: a dirty concrete batch cleans to `[linhaValida]`, which
then re-validates to itself. -/
theorem validar_idempotente_witness :
    validarDados [linhaValida] 1 = Except.ok [linhaValida] :=
  validar_idempotente loteOrdem 1 [linhaValida] rfl

/-! ### Claim C1 — the promotion gate -/

theorem f1Score_nonneg (yTeste yPred : List Bool) : 0 ≤ f1Score yTeste yPred := by
  simp only [f1Score]
  split
  · exact le_refl 0
  · positivity

/-- C1: the gate promotes exactly when the candidate F1 is at least the
incumbent F1 (ties favor the candidate); when no production artifact
exists the incumbent score is taken as 0.0 and — since an F1 score is
never negative — the first-ever trained model is always promoted,
whatever its own predictions are. -/
theorem gate_promocao_monotona :
    (∀ a b : ℚ, decidirPromocao a b = true ↔ a ≤ b) ∧
    (∀ predNovo predAtual yTeste,
      (compararModelos predNovo (some predAtual) yTeste).1
        = decidirPromocao (f1Score yTeste predAtual) (f1Score yTeste predNovo)) ∧
    (∀ predNovo yTeste,
      compararModelos predNovo none yTeste = (true, 0, f1Score yTeste predNovo)) := by
  refine ⟨fun a b => by simp [decidirPromocao], fun _ _ _ => rfl, fun predNovo yTeste => ?_⟩
  have h1 : decidirPromocao 0 (f1Score yTeste predNovo) = true :=
    decide_eq_true (f1Score_nonneg yTeste predNovo)
  show (decidirPromocao 0 (f1Score yTeste predNovo), 0, f1Score yTeste predNovo) = _
  rw [h1]

/-! ### Claim C7 — the feature schema -/

theorem mem_insere (a s : String) (l : List String) :
    a ∈ insere s l ↔ a = s ∨ a ∈ l := by
  induction l with
  | nil => simp [insere]
  | cons x xs ih =>
    by_cases h : menorStr s x = true
    · simp [insere, h]
    · simp only [insere, if_neg h, List.mem_cons, ih]
      tauto

theorem mem_ordenar (a : String) (l : List String) :
    a ∈ ordenar l ↔ a ∈ l := by
  induction l with
  | nil => rfl
  | cons x xs ih =>
    show a ∈ insere x (ordenar xs) ↔ _
    rw [mem_insere]
    simp [ih]

theorem mem_categoriasPresentes (l : List Registro) (c : String) :
    c ∈ categoriasPresentes l ↔ ∃ r ∈ l, r.categoria = some c := by
  unfold categoriasPresentes
  rw [mem_ordenar, mem_dropDup, List.mem_filterMap]

/-- A batch whose single row carries the known category code A. -/
def loteCategoriaA : List Registro := [⟨some 1, some 1, some 1, some "A", some 0⟩]

/-- A batch whose single row carries the unseen category code E (outside
the four codes A–D of the original design). -/
def loteCategoriaE : List Registro := [⟨some 1, some 1, some 1, some "E", some 0⟩]

/-- C7 counterexample.  The claim states the preparer uses a fixed
vocabulary of the four known codes, a stable column set across calls, and
that an unseen code never silently creates a new column.  In the code the
columns come from `pd.get_dummies` on whatever the batch contains: a batch
with the unseen code E silently gets a `categoria_E` column, lacks the
`categoria_A` column, and its column set differs from another batch's. -/
theorem colunas_contraexemplo :
    colunasFeatures loteCategoriaE ≠ colunasFeatures loteCategoriaA ∧
    "categoria_E" ∈ colunasFeatures loteCategoriaE ∧
    "categoria_A" ∉ colunasFeatures loteCategoriaE := by
  decide

/-- C7 amended: the feature preparer is a deterministic pure function of
the batch whose category vocabulary is inferred per batch: it emits one
boolean column `categoria_c` for exactly the category codes `c` present in
the batch (an unseen code silently creates a new column, an absent known
code's column is missing, and a missing category contributes none), after
the three fixed numeric columns. -/
theorem colunas_por_lote (l : List Registro) :
    (∀ c, c ∈ categoriasPresentes l ↔ ∃ r ∈ l, r.categoria = some c) ∧
    (colunasFeatures l).length = 3 + (categoriasPresentes l).length ∧
    (prepararFeatures l).1.1 = colunasFeatures l ∧
    (prepararFeatures l).2 = l.map (fun r => r.isFraude) := by
  refine ⟨fun c => mem_categoriasPresentes l c, ?_, rfl, rfl⟩
  simp only [colunasFeatures, List.length_append, List.length_map,
    List.length_cons, List.length_nil]

/-! ### Claim C6 — the fixed holdout set -/

/-- C6: `obter_dados_teste` returns the persisted set when one exists and
otherwise persists the synthesized one; after any call a persisted set
exists, a second call returns exactly the same prepared data and leaves
the persisted state unchanged, and once a set is persisted the result no
longer depends on the generator at all — so any fixed model scores
identically in two consecutive job runs. -/
theorem holdout_estavel (gerado : List Registro) (persistido : Option (List Registro)) :
    (obterDadosTeste gerado (obterDadosTeste gerado persistido).2).1
      = (obterDadosTeste gerado persistido).1 ∧
    (obterDadosTeste gerado (obterDadosTeste gerado persistido).2).2
      = (obterDadosTeste gerado persistido).2 ∧
    (obterDadosTeste gerado persistido).2.isSome = true ∧
    (∀ outroGerado dados, obterDadosTeste gerado (some dados)
      = obterDadosTeste outroGerado (some dados)) ∧
    obterDadosTeste gerado none = (prepararFeatures gerado, some gerado) := by
  cases persistido <;> simp [obterDadosTeste]

/-! ### Claim C10 — the trainer's hard-coded configuration -/

/-- C10: `treinar_modelo` fixes the ensemble size (100), the depth bound
(10) and the random seed (42) inside the trainer, so the effective seed
ignores the ambient entropy and two invocations on the same batch hand the
opaque fitting algorithm identical inputs and produce identical artifacts,
whatever entropy the environment supplies. -/
theorem treino_deterministico {M : Type}
    (fit : ConfigTreino → ℕ → (List String × List (List (Option ℚ))) → List (Option ℤ) → M)
    (entropia₁ entropia₂ : ℕ) (dados : List Registro) :
    treinarModelo fit entropia₁ dados = treinarModelo fit entropia₂ dados ∧
    seedEfetiva configPadraoFraude entropia₁ = 42 ∧
    configPadraoFraude = ⟨100, some 10, some 42, -1⟩ :=
  ⟨rfl, rfl, rfl⟩

/-! ### Claim C2 — the orchestrator's error handling -/

/-- C2: every error raised in the Collect→Decide phases surfaces exactly
once at the orchestrator boundary as the aborted terminal status carrying
that error, with exactly one notification carrying the error message and
the registry untouched; the run always ends in exactly one of the three
terminal statuses; the finalization step runs on every path; a Promote
outcome sends no alert and a Reject outcome sends exactly one alert with
both scores while leaving the registry unchanged. -/
theorem orquestrador_um_desfecho (f : FasesJob) (e : EstadoModelos) :
    (executarJob f e).finalizado = true ∧
    ((executarJob f e).status = StatusJob.promovido ∨
     (executarJob f e).status = StatusJob.rejeitado ∨
     ∃ msg, (executarJob f e).status = StatusJob.abortado msg) ∧
    (∀ msg, nucleoJob f = Except.error msg →
      (executarJob f e).status = StatusJob.abortado msg ∧
      (executarJob f e).alertas = [⟨msg, none, none⟩] ∧
      (executarJob f e).estado = e) ∧
    (∀ m f1Atual f1Novo, nucleoJob f = Except.ok (m, false, f1Atual, f1Novo) →
      (executarJob f e).status = StatusJob.rejeitado ∧
      (executarJob f e).alertas = [⟨"Modelo novo pior que atual", some f1Atual, some f1Novo⟩] ∧
      (executarJob f e).estado = e) ∧
    (∀ m f1Atual f1Novo, nucleoJob f = Except.ok (m, true, f1Atual, f1Novo) →
      (executarJob f e).status = StatusJob.promovido ∧
      (executarJob f e).alertas = []) := by
  refine ⟨?_, ?_, ?_, ?_, ?_⟩
  · unfold executarJob
    split <;> rfl
  · unfold executarJob
    split
    · exact Or.inl rfl
    · exact Or.inr (Or.inl rfl)
    · exact Or.inr (Or.inr ⟨_, rfl⟩)
  · intro msg h
    simp [executarJob, h]
  · intro m f1Atual f1Novo h
    simp [executarJob, h]
  · intro m f1Atual f1Novo h
    simp [executarJob, h]

/-- A run whose Collect phase raises. -/
def fasesFalha : FasesJob :=
  ⟨Except.error "sem dados", fun d => Except.ok d, fun _ => Except.ok [7],
    fun _ => Except.ok (true, 0, 1), "t1"⟩

/-- C2 witness: on a concrete run whose Collect phase raises, the job
aborts with that message, sends exactly that one alert, and finalizes. -/
theorem orquestrador_um_desfecho_witness :
    (executarJob fasesFalha estadoVazio).status = StatusJob.abortado "sem dados" ∧
    (executarJob fasesFalha estadoVazio).alertas = [⟨"sem dados", none, none⟩] ∧
    (executarJob fasesFalha estadoVazio).estado = estadoVazio :=
  (orquestrador_um_desfecho fasesFalha estadoVazio).2.2.1 "sem dados" rfl

/-! ### Claim C3 — the promotion swap -/

/-- The registry just before a promotion: artifact `[1]` is current, the
archive is empty. -/
def estadoAntes : EstadoModelos := ⟨some [1], []⟩

/-- C3 counterexample.  The claim states the prior current artifact is
*moved* (ceasing to be current) into the archive, and that no intermediate
state is partially written.  In the code's promotion trace on a concrete
registry: (a) right after the archive step the prior artifact sits in the
archive *and* is still the current file — `shutil.copy`, not a move; and
(b) `open(..., 'wb')` truncates the current file in place, so an
intermediate state shows current contents that are neither the prior nor
the candidate artifact — an observable partial write (in-place overwrite,
not write-then-swap). -/
theorem promocao_troca_contraexemplo :
    (∃ s ∈ promoverTrace "t1" [2] estadoAntes,
      s.arquivo = [("t1", [1])] ∧ s.producao = some [1]) ∧
    (∃ s ∈ promoverTrace "t1" [2] estadoAntes,
      s.producao ≠ some [1] ∧ s.producao ≠ some [2] ∧ s.producao ≠ none) := by
  decide

/-- C3 amended: for every promotion with an existing current artifact, the
registry operation *copies* the prior current artifact into the archive
under the timestamp-derived key and then overwrites the current slot in
place; the current-artifact slot is never missing at any observable state
of the promotion (though it can be observed partially written, since the
overwrite truncates in place rather than write-then-swap), and the final
state has the candidate current and the prior artifact archived. -/
theorem promocao_amendada (e : EstadoModelos) (atual : Modelo) (ts : String)
    (novo : Modelo) (h : e.producao = some atual) :
    (∀ s ∈ promoverTrace ts novo e, s.producao ≠ none) ∧
    promoverModelo ts novo e = ⟨some novo, gravarArquivo ts atual e.arquivo⟩ ∧
    (promoverTrace ts novo e).getLast? = some (promoverModelo ts novo e) := by
  obtain ⟨prod, arq⟩ := e
  obtain rfl : prod = some atual := h
  refine ⟨?_, rfl, rfl⟩
  intro s hs
  have hs' : s ∈ [(⟨some atual, arq⟩ : EstadoModelos),
      ⟨some atual, gravarArquivo ts atual arq⟩,
      ⟨some [], gravarArquivo ts atual arq⟩,
      ⟨some novo, gravarArquivo ts atual arq⟩] := hs
  simp only [List.mem_cons, List.not_mem_nil, or_false] at hs'
  rcases hs' with rfl | rfl | rfl | rfl <;> simp

/-- C3 amended, witness: the concrete promotion of `[2]` over `estadoAntes`. -/
theorem promocao_amendada_witness :
    estadoAntes.producao = some [1] ∧
    ((∀ s ∈ promoverTrace "t1" [2] estadoAntes, s.producao ≠ none) ∧
     promoverModelo "t1" [2] estadoAntes = ⟨some [2], gravarArquivo "t1" [1] []⟩ ∧
     (promoverTrace "t1" [2] estadoAntes).getLast?
       = some (promoverModelo "t1" [2] estadoAntes)) :=
  ⟨rfl, promocao_amendada estadoAntes [1] "t1" [2] rfl⟩

/-! ### Claim C8 — the registry invariant over sequences of runs -/

theorem gravarArquivo_fresh (k : String) (m : Modelo) (l : List (String × Modelo))
    (h : k ∉ l.map Prod.fst) : gravarArquivo k m l = l ++ [(k, m)] := by
  induction l with
  | nil => rfl
  | cons par resto ih =>
    obtain ⟨k', v'⟩ := par
    simp only [List.map_cons, List.mem_cons] at h
    push_neg at h
    simp only [gravarArquivo, if_neg h.1, List.cons_append]
    rw [ih h.2]

theorem executarJob_estado_sem_promocao (f : FasesJob) (e : EstadoModelos)
    (h : ehPromocao f = false) : (executarJob f e).estado = e := by
  unfold ehPromocao at h
  rcases hn : nucleoJob f with msg | ⟨m, b, a, n⟩
  · simp [executarJob, hn]
  · cases b
    · simp [executarJob, hn]
    · rw [hn] at h
      simp at h

theorem executarJob_estado_com_promocao (f : FasesJob) (e : EstadoModelos)
    (m : Modelo) (f1Atual f1Novo : ℚ)
    (h : nucleoJob f = Except.ok (m, true, f1Atual, f1Novo)) :
    (executarJob f e).estado = promoverModelo f.ts m e := by
  simp [executarJob, h]

theorem sequencia_com_producao :
    ∀ (fs : List FasesJob) (e : EstadoModelos) (m : Modelo),
      e.producao = some m →
      (∀ g ∈ fs, g.ts ∉ e.arquivo.map Prod.fst) →
      (fs.map FasesJob.ts).Pairwise (fun a b => a ≠ b) →
      (executarSequencia fs e).arquivo.length = e.arquivo.length + contarPromocoes fs ∧
      (executarSequencia fs e).producao.isSome = true := by
  intro fs
  induction fs with
  | nil =>
    intro e m hm _ _
    simp [executarSequencia, contarPromocoes, hm]
  | cons f fs ih =>
    intro e m hm hfresh hpw
    simp only [List.map_cons, List.pairwise_cons] at hpw
    have hcount := List.countP_cons ehPromocao f fs
    by_cases hp : ehPromocao f = true
    · -- a Promote run: the prior artifact is archived under the fresh key
      obtain ⟨mo, f1a, f1n, hn⟩ :
          ∃ mo f1a f1n, nucleoJob f = Except.ok (mo, true, f1a, f1n) := by
        unfold ehPromocao at hp
        rcases hn : nucleoJob f with msg | ⟨mo, b, a, n⟩
        · rw [hn] at hp
          simp at hp
        · cases b
          · rw [hn] at hp
            simp at hp
          · exact ⟨mo, a, n, rfl⟩
      have hts : f.ts ∉ e.arquivo.map Prod.fst := hfresh f (List.mem_cons_self f fs)
      have hest : (executarJob f e).estado
          = ⟨some mo, e.arquivo ++ [(f.ts, m)]⟩ := by
        rw [executarJob_estado_com_promocao f e mo f1a f1n hn]
        simp [promoverModelo, hm, gravarArquivo_fresh f.ts m e.arquivo hts]
      have hfresh' : ∀ g ∈ fs,
          g.ts ∉ (e.arquivo ++ [(f.ts, m)]).map Prod.fst := by
        intro g hg hmem
        simp only [List.map_append, List.map_cons, List.map_nil,
          List.mem_append, List.mem_singleton] at hmem
        rcases hmem with hmem | hmem
        · exact hfresh g (List.mem_cons_of_mem f hg) hmem
        · exact hpw.1 g.ts (List.mem_map_of_mem FasesJob.ts hg) hmem.symm
      have IH := ih ⟨some mo, e.arquivo ++ [(f.ts, m)]⟩ mo rfl hfresh' hpw.2
      constructor
      · show (executarSequencia fs (executarJob f e).estado).arquivo.length = _
        rw [hest, IH.1]
        simp only [contarPromocoes] at hcount ⊢
        rw [hcount, if_pos hp]
        simp only [List.length_append, List.length_cons, List.length_nil]
        omega
      · show (executarSequencia fs (executarJob f e).estado).producao.isSome = true
        rw [hest]
        exact IH.2
    · -- a Reject or aborted run: the registry is untouched
      have hest := executarJob_estado_sem_promocao f e (Bool.not_eq_true _ ▸ hp)
      have IH := ih e m hm (fun g hg => hfresh g (List.mem_cons_of_mem f hg)) hpw.2
      constructor
      · show (executarSequencia fs (executarJob f e).estado).arquivo.length = _
        rw [hest, IH.1]
        simp only [contarPromocoes] at hcount ⊢
        rw [hcount, if_neg hp]
        omega
      · show (executarSequencia fs (executarJob f e).estado).producao.isSome = true
        rw [hest]
        exact IH.2

theorem sequencia_sem_producao :
    ∀ (fs : List FasesJob) (e : EstadoModelos),
      e.producao = none →
      (∀ g ∈ fs, g.ts ∉ e.arquivo.map Prod.fst) →
      (fs.map FasesJob.ts).Pairwise (fun a b => a ≠ b) →
      (executarSequencia fs e).arquivo.length
        = e.arquivo.length + (contarPromocoes fs - 1) ∧
      ((executarSequencia fs e).producao.isSome = true ↔ 0 < contarPromocoes fs) := by
  intro fs
  induction fs with
  | nil =>
    intro e hm _ _
    simp [executarSequencia, contarPromocoes, hm]
  | cons f fs ih =>
    intro e hm hfresh hpw
    simp only [List.map_cons, List.pairwise_cons] at hpw
    have hcount := List.countP_cons ehPromocao f fs
    by_cases hp : ehPromocao f = true
    · -- the first Promote of the sequence: nothing to archive yet
      obtain ⟨mo, f1a, f1n, hn⟩ :
          ∃ mo f1a f1n, nucleoJob f = Except.ok (mo, true, f1a, f1n) := by
        unfold ehPromocao at hp
        rcases hn : nucleoJob f with msg | ⟨mo, b, a, n⟩
        · rw [hn] at hp
          simp at hp
        · cases b
          · rw [hn] at hp
            simp at hp
          · exact ⟨mo, a, n, rfl⟩
      have hest : (executarJob f e).estado = ⟨some mo, e.arquivo⟩ := by
        rw [executarJob_estado_com_promocao f e mo f1a f1n hn]
        simp [promoverModelo, hm]
      have IH := sequencia_com_producao fs ⟨some mo, e.arquivo⟩ mo rfl
        (fun g hg => hfresh g (List.mem_cons_of_mem f hg)) hpw.2
      constructor
      · show (executarSequencia fs (executarJob f e).estado).arquivo.length = _
        rw [hest, IH.1]
        simp only [contarPromocoes] at hcount ⊢
        rw [hcount, if_pos hp]
        omega
      · show ((executarSequencia fs (executarJob f e).estado).producao.isSome = true ↔ _)
        rw [hest]
        simp only [contarPromocoes] at hcount ⊢
        rw [hcount, if_pos hp]
        exact iff_of_true IH.2 (by omega)
    · -- still no production model
      have hest := executarJob_estado_sem_promocao f e (Bool.not_eq_true _ ▸ hp)
      have IH := ih e hm (fun g hg => hfresh g (List.mem_cons_of_mem f hg)) hpw.2
      have hc : contarPromocoes (f :: fs) = contarPromocoes fs := by
        simp only [contarPromocoes] at hcount ⊢
        rw [hcount, if_neg hp]
        omega
      constructor
      · show (executarSequencia fs (executarJob f e).estado).arquivo.length = _
        rw [hest, IH.1, hc]
      · show ((executarSequencia fs (executarJob f e).estado).producao.isSome = true ↔ _)
        rw [hest, hc]
        exact IH.2

/-- C8: starting from the empty registry, after any sequence of job runs
(whose promotion timestamps are pairwise distinct, so that no archive key
collides) the current-production slot is filled exactly when at least one
Promote decision occurred — it holds 0 or 1 artifacts by construction —
and the archive holds exactly one entry per Promote decision after the
first (the first promotion archives nothing); a run that does not promote
(Reject or aborted) leaves the registry completely unchanged. -/
theorem registro_invariante (fs : List FasesJob)
    (h : (fs.map FasesJob.ts).Pairwise (fun a b => a ≠ b)) :
    (executarSequencia fs estadoVazio).arquivo.length = contarPromocoes fs - 1 ∧
    ((executarSequencia fs estadoVazio).producao.isSome = true ↔
      0 < contarPromocoes fs) ∧
    (∀ (f : FasesJob) (e : EstadoModelos), ehPromocao f = false →
      (executarJob f e).estado = e) := by
  have H := sequencia_sem_producao fs estadoVazio rfl
    (by intro g _ hmem; simp [estadoVazio] at hmem) h
  exact ⟨by simpa [estadoVazio] using H.1, H.2, executarJob_estado_sem_promocao⟩

/-- A run that reaches a Promote decision, promoting artifact `[7]` under
timestamp `t`. -/
def fasesPromove (t : String) : FasesJob :=
  ⟨Except.ok [], fun d => Except.ok d, fun _ => Except.ok [7],
    fun _ => Except.ok (true, 0, 1), t⟩

/-- A run that reaches a Reject decision. -/
def fasesRejeita : FasesJob :=
  ⟨Except.ok [], fun d => Except.ok d, fun _ => Except.ok [7],
    fun _ => Except.ok (false, 1, 0), "r"⟩

/-- C8 witness: two promoting runs with distinct timestamps leave one
archive entry and a current artifact; a rejecting run changes nothing. -/
theorem registro_invariante_witness :
    (([fasesPromove "a", fasesPromove "b"].map FasesJob.ts).Pairwise
      (fun a b => a ≠ b)) ∧
    (executarSequencia [fasesPromove "a", fasesPromove "b"] estadoVazio).arquivo.length
      = contarPromocoes [fasesPromove "a", fasesPromove "b"] - 1 ∧
    ((executarSequencia [fasesPromove "a", fasesPromove "b"] estadoVazio).producao.isSome
        = true ↔ 0 < contarPromocoes [fasesPromove "a", fasesPromove "b"]) ∧
    (executarJob fasesRejeita estadoVazio).estado = estadoVazio := by
  have hpw : (([fasesPromove "a", fasesPromove "b"].map FasesJob.ts).Pairwise
      (fun a b => a ≠ b)) := by
    simp [fasesPromove]
  have H := registro_invariante [fasesPromove "a", fasesPromove "b"] hpw
  exact ⟨hpw, H.1, H.2.1, H.2.2 fasesRejeita estadoVazio rfl⟩

end RetreinamentoFraude
